import Mathlib

/-!
Shallow embedding of the kv_pet core (src/kv_pet/pdf_extract.py and
src/kv_pet/file_lookup.py).  Python strings are lists of characters
(ASCII model), Python text functions are translated character by
character, and the filesystem seen by scan_folder is an explicit
snapshot model.  All definitions are executable structural recursions
so that concrete inputs evaluate inside the kernel.
-/

/-- Python strings, modelled as lists of characters. -/
abbrev PyStr := List Char

/-- View a Lean string literal as a Python string value. -/
def pyStr (s : String) : PyStr := s.data

/-- Python whitespace (ASCII model): the characters treated as whitespace by
str.split, str.strip and the regex whitespace class. -/
def isPySpace (c : Char) : Bool :=
  c == ' ' || c == '\t' || c == '\n' || c == '\r' || c == '\x0b' || c == '\x0c'

/-- Python str.lower, ASCII model. -/
def pyLower (s : PyStr) : PyStr := s.map Char.toLower

/-- Remove trailing characters satisfying p (Python str.rstrip with a
character set). -/
def dropTrailing (p : Char → Bool) (s : PyStr) : PyStr :=
  ((s.reverse).dropWhile p).reverse

/-- Python str.strip with no arguments: surrounding whitespace removed. -/
def pyStrip (s : PyStr) : PyStr := dropTrailing isPySpace (s.dropWhile isPySpace)

/-- Python s.endswith with a one-character suffix: the last character is c. -/
def lastIs (c : Char) (s : PyStr) : Bool :=
  match s.reverse with
  | [] => false
  | d :: _ => d == c

/-- Python str.startswith: does the second string begin with the first? -/
def listStarts : PyStr → PyStr → Bool
  | [], _ => true
  | _ :: _, [] => false
  | a :: ps, b :: ss => a == b && listStarts ps ss

/-- Python substring membership (the in operator on str). -/
def listHas (p : PyStr) : PyStr → Bool
  | [] => listStarts p []
  | c :: rest => listStarts p (c :: rest) || listHas p rest

/-- normalize_for_match from file_lookup.py: lowercase, then the character
class regex substitution removes every whitespace, hyphen and underscore. -/
def normalize_for_match (text : PyStr) : PyStr :=
  (pyLower text).filter (fun c => !(isPySpace c || c == '-' || c == '_'))

/-- Helper for Python str.split with no arguments: accumulates the current
word (reversed) and splits on whitespace runs, dropping empty pieces. -/
def pySplitAux : PyStr → PyStr → List PyStr
  | [], acc => if acc.isEmpty then [] else [acc.reverse]
  | c :: cs, acc =>
    if isPySpace c then
      if acc.isEmpty then pySplitAux cs [] else acc.reverse :: pySplitAux cs []
    else pySplitAux cs (c :: acc)

/-- Python str.split with no arguments. -/
def pySplit (s : PyStr) : List PyStr := pySplitAux s []

/-- Python str.replace with the empty replacement: delete every occurrence
of the character c. -/
def removeChar (c : Char) (s : PyStr) : PyStr := s.filter (fun d => !(d == c))

/-- normalize_header from pdf_extract.py: None becomes the empty string;
otherwise join the lowercased text split on whitespace, then delete
hyphens, then delete underscores. -/
def normalize_header : Option PyStr → PyStr
  | none => []
  | some text => removeChar '_' (removeChar '-' ((pySplit (pyLower text)).flatten))

/-- COLUMN_ALIASES from pdf_extract.py, with the dict-get default of the
bare column name itself. -/
def column_aliases (column_name : String) : List PyStr :=
  if column_name = "partnumber" then
    [pyStr "partnumber", pyStr "partno", pyStr "pn", pyStr "part"]
  else if column_name = "title" then [pyStr "title", pyStr "name"]
  else if column_name = "description" then [pyStr "description", pyStr "desc"]
  else if column_name = "material" then [pyStr "material", pyStr "mat"]
  else if column_name = "mass" then [pyStr "mass", pyStr "weight", pyStr "wt"]
  else if column_name = "qty" then [pyStr "qty", pyStr "quantity", pyStr "count"]
  else [pyStr column_name]

/-- find_column_index from pdf_extract.py: index of the first header cell
whose normalization is one of the column's aliases. -/
def find_column_index (headers : List (Option PyStr)) (column_name : String) : Option Nat :=
  headers.findIdx? (fun h => (column_aliases column_name).contains (normalize_header h))

/-- find_part_number_column from pdf_extract.py. -/
def find_part_number_column (headers : List (Option PyStr)) : Option Nat :=
  find_column_index headers "partnumber"

/-- Helper scanning rows from a given index, mirroring the enumerate loop in
find_header_row. -/
def find_header_row_aux : Nat → List (List (Option PyStr)) → Option (Nat × Nat)
  | _, [] => none
  | i, row :: rest =>
    match find_part_number_column row with
    | some c => some (i, c)
    | none => find_header_row_aux (i + 1) rest

/-- find_header_row from pdf_extract.py: first row holding a part-number
alias, together with the matching column index. -/
def find_header_row (table : List (List (Option PyStr))) : Option (Nat × Nat) :=
  find_header_row_aux 0 table

/-- The fixed header keyword list of is_header_like. -/
def header_keywords : List PyStr :=
  [pyStr "part", pyStr "number", pyStr "pos", pyStr "title", pyStr "description",
   pyStr "material", pyStr "mass", pyStr "qty", pyStr "quantity", pyStr "item"]

/-- is_header_like from pdf_extract.py: lowercased and stripped value is a
known column keyword, or implausibly long. -/
def is_header_like (value : PyStr) : Bool :=
  header_keywords.contains (pyStrip (pyLower value)) || (pyStrip (pyLower value)).length > 50

/-- get_cell_value from pdf_extract.py: safe lookup of an optional column in
a row of optional cells, stripped, with the empty string as fallback. -/
def get_cell_value (row : List (Option PyStr)) (idx : Option Nat) : PyStr :=
  match idx with
  | none => []
  | some i =>
    if i ≥ row.length then []
    else
      match row.getD i none with
      | none => []
      | some v => if v.isEmpty then [] else pyStrip v

/-- PartRow from pdf_extract.py. -/
structure PartRow where
  part_number : PyStr
  title : PyStr := []
  description : PyStr := []
  material : PyStr := []
  mass : PyStr := []
  qty : PyStr := []
deriving DecidableEq

/-- extract_part_rows_from_table from pdf_extract.py.  Candidate data rows
are the rows above the header; if no such row has a truthy, non-header-like
part-number cell, the rows below the header are used instead. -/
def extract_part_rows_from_table (table : List (List (Option PyStr))) : List PartRow :=
  if table.length < 2 then []
  else
    match find_header_row table with
    | none => []
    | some (h, c) =>
      let header_row := table.getD h []
      let above := table.take h
      let data_rows :=
        if ((above.filter (fun row => !is_header_like (get_cell_value row (some c)))).any
              (fun row => !(get_cell_value row (some c)).isEmpty)) then
          above
        else table.drop (h + 1)
      data_rows.filterMap (fun row =>
        let pn := get_cell_value row (some c)
        if !pn.isEmpty && !is_header_like pn then
          some { part_number := pn,
                 title := get_cell_value row (find_column_index header_row "title"),
                 description := get_cell_value row (find_column_index header_row "description"),
                 material := get_cell_value row (find_column_index header_row "material"),
                 mass := get_cell_value row (find_column_index header_row "mass"),
                 qty := get_cell_value row (find_column_index header_row "qty") }
        else none)

/-- A scanned file as used by the matcher: its final path component
(pathlib Path.name). -/
structure FsPath where
  name : PyStr
deriving DecidableEq

/-- Build an FsPath from a literal file name. -/
def mkPath (s : String) : FsPath := ⟨s.data⟩

/-- Index of the last dot in a name, if any (str.rfind in pathlib). -/
def lastDotIdx (s : PyStr) : Option Nat :=
  match (s.reverse).findIdx? (fun c => c == '.') with
  | none => none
  | some j => some (s.length - 1 - j)

/-- pathlib Path.stem: the final component without its last suffix. -/
def pathStem (p : FsPath) : PyStr :=
  match lastDotIdx p.name with
  | none => p.name
  | some i => if 0 < i ∧ i < p.name.length - 1 then p.name.take i else p.name

/-- pathlib Path.suffix: the last extension of the final component, dot
included, or empty. -/
def pathSuffix (p : FsPath) : PyStr :=
  match lastDotIdx p.name with
  | none => []
  | some i => if 0 < i ∧ i < p.name.length - 1 then p.name.drop i else []

/-- Greedy digit span: the maximal run of digits at the front, and the rest. -/
def spanDigits : PyStr → PyStr × PyStr
  | [] => ([], [])
  | c :: cs =>
    if c.isDigit then
      let r := spanDigits cs
      (c :: r.1, r.2)
    else ([], c :: cs)

/-- Attempt to match the revision regex at the start of the string: an
underscore, the letter r, an optional literal ev, then one or more digits.
Returns the digit group and the remainder after the whole match.  The ev
alternative is preferred, and the fallback agrees with regex backtracking:
when ev is present but followed by no digit, the no-ev alternative would
have to find a digit at the position of the e and fails as well. -/
def matchRevAt (l : PyStr) : Option (PyStr × PyStr) :=
  if l.take 2 = ['_', 'r'] then
    if (l.drop 2).take 2 = ['e', 'v'] ∧ (spanDigits (l.drop 4)).1 ≠ [] then
      some (spanDigits (l.drop 4))
    else if (spanDigits (l.drop 2)).1 ≠ [] then some (spanDigits (l.drop 2))
    else none
  else none

/-- Decimal value of a digit string (Python int on the regex group). -/
def digitsVal (ds : PyStr) : Nat :=
  ds.foldl (fun acc c => acc * 10 + (c.toNat - 48)) 0

/-- Leftmost regex search for the revision token over an already lowercased
string, returning the parsed digit group. -/
def findRevAux : PyStr → Option Nat
  | [] => none
  | c :: cs =>
    match matchRevAt (c :: cs) with
    | some (ds, _) => some (digitsVal ds)
    | none => findRevAux cs

/-- extract_revision_number from file_lookup.py: regex search for the
revision token in the lowercased filename. -/
def extract_revision_number (filename : PyStr) : Option Nat :=
  findRevAux (pyLower filename)

/-- Fuel-indexed removal of every non-overlapping revision-token match,
scanning left to right as regex substitution does.  Fuel at least the
length of the string makes the fuel bound unreachable. -/
def removeRevFuel : Nat → PyStr → PyStr
  | 0, l => l
  | _ + 1, [] => []
  | fuel + 1, c :: cs =>
    match matchRevAt (c :: cs) with
    | some (_, rest) => removeRevFuel fuel rest
    | none => c :: removeRevFuel fuel cs

/-- get_base_name_without_revision from file_lookup.py: the lowercased
filename with every revision token deleted by regex substitution. -/
def get_base_name_without_revision (filename : PyStr) : PyStr :=
  removeRevFuel (pyLower filename).length (pyLower filename)

/-- Grouping key used by collapse_to_latest_revision, computed from the
stem of a path. -/
def baseOf (f : FsPath) : PyStr := get_base_name_without_revision (pathStem f)

/-- Parsed revision of a path's stem, as used by collapse_to_latest_revision. -/
def revOf (f : FsPath) : Option Nat := extract_revision_number (pathStem f)

/-- Append a value to the insertion-ordered group map, mirroring Python dict
insertion semantics: existing keys keep their position, new keys go last. -/
def addToGroups (gs : List (PyStr × List (Option Nat × FsPath)))
    (k : PyStr) (v : Option Nat × FsPath) : List (PyStr × List (Option Nat × FsPath)) :=
  match gs with
  | [] => [(k, [v])]
  | (k', vs) :: rest =>
    if k' = k then (k', vs ++ [v]) :: rest else (k', vs) :: addToGroups rest k v

/-- The groups dict of collapse_to_latest_revision: base key to the list of
(revision, path) pairs in file order. -/
def buildGroups (files : List FsPath) : List (PyStr × List (Option Nat × FsPath)) :=
  files.foldl (fun gs f => addToGroups gs (baseOf f) (revOf f, f)) []

/-- Per-group reduction of collapse_to_latest_revision: with a stable
descending sort on revision numbers, keep only the first element when any
member has a revision, and every revisionless member otherwise. -/
def pickLatest (items : List (Option Nat × FsPath)) : List FsPath :=
  let with_rev : List (Nat × FsPath) :=
    items.filterMap (fun x =>
      match x.1 with
      | some n => some (n, x.2)
      | none => none)
  let without_rev : List FsPath := (items.filter (fun x => x.1.isNone)).map (fun x => x.2)
  match List.insertionSort (fun a b => b.1 ≤ a.1) with_rev with
  | [] => without_rev
  | x :: _ => [x.2]

/-- collapse_to_latest_revision from file_lookup.py. -/
def collapse_to_latest_revision (files : List FsPath) : List FsPath :=
  if files.isEmpty then []
  else ((buildGroups files).map (fun g => pickLatest g.2)).flatten

/-- Extension filter of find_matching_files: Python truthiness means that
None and the empty list both disable filtering; comparison is on the
lowercased suffix against the lowercased extension list. -/
def extMatches (file_extensions : Option (List PyStr)) (file_path : FsPath) : Bool :=
  match file_extensions with
  | none => true
  | some exts =>
    if exts.isEmpty then true
    else (exts.map pyLower).contains (pyLower (pathSuffix file_path))

/-- find_matching_files from file_lookup.py: trailing asterisks removed
first, then surrounding whitespace, then normalization; stems are compared
per match mode, any unknown mode falling back to substring containment. -/
def find_matching_files (part_number : PyStr) (files : List FsPath)
    (match_mode : String) (file_extensions : Option (List PyStr)) : List FsPath :=
  let normalized_pn := normalize_for_match (pyStrip (dropTrailing (fun c => c == '*') part_number))
  files.filter (fun file_path =>
    extMatches file_extensions file_path &&
    (if match_mode = "exact" then normalize_for_match (pathStem file_path) == normalized_pn
     else if match_mode = "startswith" then
       listStarts normalized_pn (normalize_for_match (pathStem file_path))
     else listHas normalized_pn (normalize_for_match (pathStem file_path))))

/-- MatchResult from file_lookup.py. -/
structure MatchResult where
  pdf_files : List FsPath
  model_files : List FsPath
  no_pdf_required : Bool
  status : PyStr
deriving DecidableEq

/-- Decimal rendering of a count, as Python string interpolation does. -/
def pyNat (n : Nat) : PyStr := (Nat.repr n).data

/-- lookup_part_number from file_lookup.py. -/
def lookup_part_number (part_number : PyStr) (files : List FsPath)
    (match_mode : String) : MatchResult :=
  if lastIs '*' (dropTrailing isPySpace part_number) then
    { pdf_files := [],
      model_files := find_matching_files part_number files match_mode
        (some [pyStr ".ipt", pyStr ".iam"]),
      no_pdf_required := true,
      status := pyStr "No PDF required" }
  else
    let pdfs := collapse_to_latest_revision
      (find_matching_files part_number files match_mode (some [pyStr ".pdf"]))
    let models := find_matching_files part_number files match_mode
      (some [pyStr ".ipt", pyStr ".iam"])
    { pdf_files := pdfs,
      model_files := models,
      no_pdf_required := false,
      status := if pdfs.isEmpty then pyStr "No PDF match"
                else pyNat pdfs.length ++ pyStr " PDF(s)" }

/-- Kind-tagged entry of a filesystem snapshot: a path as components plus a
directory flag.  Models what pathlib exposes to scan_folder. -/
structure FsEntry where
  path : List String
  isDir : Bool
deriving DecidableEq

/-- A filesystem snapshot: the finite set of entries pathlib can observe. -/
structure FileSys where
  entries : List FsEntry
deriving DecidableEq

/-- pathlib Path.exists over the snapshot. -/
def pathPresent (fs : FileSys) (p : List String) : Bool :=
  fs.entries.any (fun e => e.path == p)

/-- pathlib Path.is_dir over the snapshot. -/
def pathIsDir (fs : FileSys) (p : List String) : Bool :=
  fs.entries.any (fun e => e.path == p && e.isDir)

/-- Component-wise path ancestry test. -/
def compStarts : List String → List String → Bool
  | [], _ => true
  | _ :: _, [] => false
  | a :: ps, b :: ss => a == b && compStarts ps ss

/-- Strict descendant relation on component paths: what rglob enumerates. -/
def properUnder (base p : List String) : Bool :=
  compStarts base p && decide (base.length < p.length)

/-- Immediate child relation on component paths: what iterdir enumerates. -/
def childOf (base p : List String) : Bool :=
  compStarts base p && p.length == base.length + 1

/-- The two filesystem errors scan_folder can raise. -/
inductive ScanErr where
  | notFound
  | notADirectory
deriving DecidableEq

/-- scan_folder from file_lookup.py over the snapshot model: existence and
directory checks first, then the regular files under the folder, recursively
or not. -/
def scan_folder (fs : FileSys) (folder : List String) (recursive : Bool) :
    Except ScanErr (List (List String)) :=
  if !pathPresent fs folder then .error .notFound
  else if !pathIsDir fs folder then .error .notADirectory
  else if recursive then
    .ok ((fs.entries.filter (fun e => !e.isDir && properUnder folder e.path)).map
      (fun e => e.path))
  else
    .ok ((fs.entries.filter (fun e => !e.isDir && childOf folder e.path)).map
      (fun e => e.path))

/-- Validity test of a data row at the part-number column, as worded by the
specification: non-empty and not header-like after trimming. -/
def validPartCell (row : List (Option PyStr)) (c : Nat) : Bool :=
  !(get_cell_value row (some c)).isEmpty && !is_header_like (get_cell_value row (some c))

/-- Data-row selection as worded by the specification: the rows strictly
above the header if at least one of them has a non-empty, non-header-like
part-number cell, and the rows strictly below the header otherwise. -/
def chosenRows (table : List (List (Option PyStr))) (h c : Nat) :
    List (List (Option PyStr)) :=
  if (table.take h).any (fun row => validPartCell row c) then table.take h
  else table.drop (h + 1)

/-- Row emission as worded by the specification: one PartRow per valid row,
every other field read from its mapped column. -/
def emitRow (header_row : List (Option PyStr)) (c : Nat)
    (row : List (Option PyStr)) : Option PartRow :=
  let pn := get_cell_value row (some c)
  if !pn.isEmpty && !is_header_like pn then
    some { part_number := pn,
           title := get_cell_value row (find_column_index header_row "title"),
           description := get_cell_value row (find_column_index header_row "description"),
           material := get_cell_value row (find_column_index header_row "material"),
           mass := get_cell_value row (find_column_index header_row "mass"),
           qty := get_cell_value row (find_column_index header_row "qty") }
  else none

/-- Row extraction as worded by the specification, reusing the located
header: emit the valid rows of the chosen candidate set in order. -/
def specExtract (table : List (List (Option PyStr))) : List PartRow :=
  match find_header_row table with
  | none => []
  | some (h, c) => (chosenRows table h c).filterMap (emitRow (table.getD h []) c)

/-- Association-list lookup over the group map, mirroring dict indexing. -/
def lookupG : List (PyStr × List (Option Nat × FsPath)) → PyStr →
    Option (List (Option Nat × FsPath))
  | [], _ => none
  | (k', vs) :: rest, k => if k' = k then some vs else lookupG rest k

/-- The keys of the group map, in insertion order. -/
def keysOf (gs : List (PyStr × List (Option Nat × FsPath))) : List PyStr :=
  gs.map (fun g => g.1)

/-! Basic facts about the Python string operations. -/

theorem dropWhile_self_idem (p : Char → Bool) (l : List Char) :
    (l.dropWhile p).dropWhile p = l.dropWhile p := by
  induction l with
  | nil => rfl
  | cons a t ih =>
    by_cases h : p a
    · simp [List.dropWhile_cons, h, ih]
    · simp [List.dropWhile_cons, h]

theorem dropTrailing_idem (p : Char → Bool) (l : PyStr) :
    dropTrailing p (dropTrailing p l) = dropTrailing p l := by
  unfold dropTrailing
  rw [List.reverse_reverse, dropWhile_self_idem]

theorem dropTrailing_star_of_not_lastIs (l : PyStr) (h : lastIs '*' l = false) :
    dropTrailing (fun c => c == '*') l = l := by
  unfold lastIs at h
  unfold dropTrailing
  rcases hr : l.reverse with _ | ⟨d, t⟩
  · simp [List.reverse_eq_nil_iff.mp hr]
  · rw [hr] at h
    simp only at h
    rw [List.dropWhile_cons, if_neg (by simp [h]), ← hr, List.reverse_reverse]

theorem dropWhile_dropTrailing (p : Char → Bool) (l : PyStr)
    (h : l.dropWhile p = l) : (dropTrailing p l).dropWhile p = dropTrailing p l := by
  cases l with
  | nil => rfl
  | cons a t =>
    have ha : p a = false := by
      rw [List.dropWhile_cons] at h
      by_cases hpa : p a = true
      · rw [if_pos hpa] at h
        have hle := (List.dropWhile_sublist (l := t) (p := p)).length_le
        have h2 := congrArg List.length h
        simp at h2
        omega
      · simpa using hpa
    unfold dropTrailing
    rw [List.reverse_cons, List.dropWhile_append]
    by_cases he : (List.dropWhile p t.reverse).isEmpty
    · rw [if_pos (by simpa using he)]
      simp [List.dropWhile_cons, ha]
    · rw [if_neg (by simpa using he)]
      rw [List.reverse_append]
      simp [List.dropWhile_cons, ha]

theorem pyStrip_idem (l : PyStr) : pyStrip (pyStrip l) = pyStrip l := by
  unfold pyStrip
  rw [dropWhile_dropTrailing isPySpace _ (dropWhile_self_idem _ _), dropTrailing_idem]

theorem find_matching_files_key_congr (q q' : PyStr) (files : List FsPath)
    (mode : String) (exts : Option (List PyStr))
    (h : pyStrip (dropTrailing (fun c => c == '*') q)
       = pyStrip (dropTrailing (fun c => c == '*') q')) :
    find_matching_files q files mode exts = find_matching_files q' files mode exts := by
  unfold find_matching_files
  rw [h]

theorem pySplitAux_flatten (s : PyStr) : ∀ acc : PyStr,
    (pySplitAux s acc).flatten = acc.reverse ++ s.filter (fun c => !isPySpace c) := by
  induction s with
  | nil =>
    intro acc
    unfold pySplitAux
    by_cases h : acc.isEmpty
    · rw [if_pos h]
      have : acc = [] := List.isEmpty_iff.mp h
      simp [this]
    · rw [if_neg h]
      simp
  | cons c cs ih =>
    intro acc
    unfold pySplitAux
    by_cases h : isPySpace c
    · rw [if_pos h]
      by_cases ha : acc.isEmpty
      · rw [if_pos ha]
        have hae : acc = [] := List.isEmpty_iff.mp ha
        simp [hae, ih, List.filter_cons, h]
      · rw [if_neg ha]
        simp [ih, List.filter_cons, h]
    · rw [if_neg h]
      rw [ih (c :: acc)]
      simp [List.filter_cons, h]

theorem normalize_header_eq_for_match (s : PyStr) :
    normalize_header (some s) = normalize_for_match s := by
  show removeChar '_' (removeChar '-' ((pySplit (pyLower s)).flatten)) = _
  unfold normalize_for_match removeChar pySplit
  rw [pySplitAux_flatten (pyLower s) []]
  simp only [List.reverse_nil, List.nil_append, List.filter_filter]
  apply List.filter_congr
  intro c _
  cases h1 : isPySpace c <;> cases h2 : c == '-' <;> cases h3 : c == '_' <;>
    simp [h1, h2, h3]

theorem listStarts_refl (l : PyStr) : listStarts l l = true := by
  induction l with
  | nil => rfl
  | cons a t ih => simp [listStarts, ih]

theorem listHas_of_listStarts (p s : PyStr) (h : listStarts p s = true) :
    listHas p s = true := by
  cases s with
  | nil => simpa [listHas] using h
  | cons c rest => simp [listHas, h]

theorem listStarts_nil_pattern (s : PyStr) : listStarts [] s = true := by
  cases s <;> rfl

theorem listHas_nil_pattern (s : PyStr) : listHas [] s = true := by
  induction s with
  | nil => rfl
  | cons c rest ih => simp [listHas, listStarts_nil_pattern]

/-! Claims C3, C4, C5 (counterexample), C6, C7, C8, C10 about the matcher
and the result builder. -/

/-- Claim C8: header-cell normalization and filename normalization are
extensionally equal, both mapping any string to its lowercase form with
every space, hyphen, and underscore removed; in particular both send
PART-NUMBER and Part Number to partnumber. -/
theorem claim8_shared_normalization :
    (∀ s : PyStr, normalize_header (some s) = normalize_for_match s)
    ∧ (∀ s : PyStr, normalize_for_match s
        = (pyLower s).filter (fun c => !(isPySpace c || c == '-' || c == '_')))
    ∧ normalize_for_match (pyStr "PART-NUMBER") = pyStr "partnumber"
    ∧ normalize_for_match (pyStr "Part Number") = pyStr "partnumber" :=
  ⟨normalize_header_eq_for_match, fun _ => rfl, by decide, by decide⟩

/-- Claim C3: a part number whose right-trimmed form ends in an asterisk
always produces the no-PDF-required result, with the model files computed by
the matcher on the asterisk-stripped query over model-type extensions. -/
theorem claim3_star_marker (pn : PyStr) (files : List FsPath) (mode : String)
    (h : lastIs '*' (dropTrailing isPySpace pn) = true) :
    lookup_part_number pn files mode =
      { pdf_files := [],
        model_files := find_matching_files (dropTrailing (fun c => c == '*') pn)
          files mode (some [pyStr ".ipt", pyStr ".iam"]),
        no_pdf_required := true,
        status := pyStr "No PDF required" } := by
  unfold lookup_part_number
  rw [if_pos h]
  rw [find_matching_files_key_congr pn (dropTrailing (fun c => c == '*') pn) files mode
    (some [pyStr ".ipt", pyStr ".iam"]) (by rw [dropTrailing_idem])]

/-- Claim C3 witness at a concrete starred query and file set. -/
theorem claim3_witness :
    lastIs '*' (dropTrailing isPySpace (pyStr "X* ")) = true ∧
    lookup_part_number (pyStr "X* ") [mkPath "X.iam", mkPath "Y.iam"] "contains" =
      { pdf_files := [],
        model_files := find_matching_files (dropTrailing (fun c => c == '*') (pyStr "X* "))
          [mkPath "X.iam", mkPath "Y.iam"] "contains" (some [pyStr ".ipt", pyStr ".iam"]),
        no_pdf_required := true,
        status := pyStr "No PDF required" } :=
  ⟨by decide, claim3_star_marker (pyStr "X* ") [mkPath "X.iam", mkPath "Y.iam"]
    "contains" (by decide)⟩

/-- Claim C4 counterexample: the claim says the query ABC-star-space matches
exactly what ABC matches, but the code removes trailing asterisks before
stripping whitespace, so the asterisk survives into the comparison key and
the two queries match differently. -/
theorem claim4_counterexample :
    ¬ (find_matching_files (pyStr "ABC* ") [mkPath "ABC.pdf"] "contains" none
       = find_matching_files (pyStr "ABC") [mkPath "ABC.pdf"] "contains" none) := by
  decide

/-- Claim C4 as amended: the comparison key removes trailing asterisks
first and surrounding whitespace second, and the query is interchangeable
with its cleaned form whenever that cleaned form does not itself end in an
asterisk. -/
theorem claim4_matcher_key (q : PyStr) (files : List FsPath) (mode : String)
    (exts : Option (List PyStr))
    (h : lastIs '*' (pyStrip (dropTrailing (fun c => c == '*') q)) = false) :
    find_matching_files q files mode exts
      = find_matching_files (pyStrip (dropTrailing (fun c => c == '*') q)) files mode exts := by
  apply find_matching_files_key_congr
  rw [dropTrailing_star_of_not_lastIs _ h, pyStrip_idem]

/-- Claim C4 witness at a concrete whitespace-padded query. -/
theorem claim4_witness :
    lastIs '*' (pyStrip (dropTrailing (fun c => c == '*') (pyStr " ABC "))) = false ∧
    find_matching_files (pyStr " ABC ") [mkPath "ABC.pdf"] "contains" none
      = find_matching_files (pyStrip (dropTrailing (fun c => c == '*') (pyStr " ABC ")))
          [mkPath "ABC.pdf"] "contains" none :=
  ⟨by decide, claim4_matcher_key (pyStr " ABC ") [mkPath "ABC.pdf"] "contains" none (by decide)⟩

/-- Claim C5 counterexample: the grouping key does not remove spaces,
hyphens or underscores, so stems differing only in a space get different
keys and their files are grouped and kept separately, against the claim. -/
theorem claim5_counterexample :
    get_base_name_without_revision (pyStr "a b") ≠ get_base_name_without_revision (pyStr "ab")
    ∧ collapse_to_latest_revision [mkPath "a b_rev1.pdf", mkPath "ab_rev2.pdf"]
        = [mkPath "a b_rev1.pdf", mkPath "ab_rev2.pdf"] := by
  decide

/-- Claim C7: every result of lookup_part_number satisfies the two
invariants: the no-PDF-required flag forces an empty pdf list, and the
status string is the stated pure function of the other fields. -/
theorem claim7_result_invariants (pn : PyStr) (files : List FsPath) (mode : String) :
    ((lookup_part_number pn files mode).no_pdf_required = true →
      (lookup_part_number pn files mode).pdf_files = [])
    ∧ (lookup_part_number pn files mode).status =
        (if (lookup_part_number pn files mode).no_pdf_required then pyStr "No PDF required"
         else if (lookup_part_number pn files mode).pdf_files.isEmpty then pyStr "No PDF match"
         else pyNat (lookup_part_number pn files mode).pdf_files.length ++ pyStr " PDF(s)") := by
  unfold lookup_part_number
  by_cases h : lastIs '*' (dropTrailing isPySpace pn) = true
  · rw [if_pos h]
    exact ⟨fun _ => rfl, rfl⟩
  · rw [if_neg h]
    refine ⟨fun hc => by simp at hc, ?_⟩
    simp only []
    by_cases hp : (collapse_to_latest_revision
        (find_matching_files pn files mode (some [pyStr ".pdf"]))).isEmpty
    · simp [hp]
    · simp [hp]

/-- Claim C7 witness at concrete inputs. -/
theorem claim7_witness :
    ((lookup_part_number (pyStr "A") [mkPath "A.pdf"] "contains").no_pdf_required = true →
      (lookup_part_number (pyStr "A") [mkPath "A.pdf"] "contains").pdf_files = [])
    ∧ (lookup_part_number (pyStr "A") [mkPath "A.pdf"] "contains").status =
        (if (lookup_part_number (pyStr "A") [mkPath "A.pdf"] "contains").no_pdf_required
         then pyStr "No PDF required"
         else if (lookup_part_number (pyStr "A") [mkPath "A.pdf"] "contains").pdf_files.isEmpty
         then pyStr "No PDF match"
         else pyNat (lookup_part_number (pyStr "A") [mkPath "A.pdf"] "contains").pdf_files.length
           ++ pyStr " PDF(s)") :=
  claim7_result_invariants (pyStr "A") [mkPath "A.pdf"] "contains"

/-- Claim C6: for a fixed query, file list and extension filter the three
match modes produce nested result sets: exact within startswith within
contains. -/
theorem claim6_mode_nesting (q : PyStr) (files : List FsPath) (exts : Option (List PyStr)) :
    find_matching_files q files "exact" exts ⊆ find_matching_files q files "startswith" exts
    ∧ find_matching_files q files "startswith" exts ⊆ find_matching_files q files "contains" exts := by
  constructor
  · intro f hf
    unfold find_matching_files at hf ⊢
    rw [List.mem_filter] at hf ⊢
    refine ⟨hf.1, ?_⟩
    have h2 := hf.2
    simp only [Bool.and_eq_true] at h2 ⊢
    refine ⟨h2.1, ?_⟩
    have h3 := h2.2
    simp only [reduceIte] at h3 ⊢
    have : normalize_for_match (pathStem f)
        = normalize_for_match (pyStrip (dropTrailing (fun c => c == '*') q)) := by
      exact eq_of_beq h3
    rw [← this]
    exact listStarts_refl _
  · intro f hf
    unfold find_matching_files at hf ⊢
    rw [List.mem_filter] at hf ⊢
    refine ⟨hf.1, ?_⟩
    have h2 := hf.2
    simp only [Bool.and_eq_true] at h2 ⊢
    refine ⟨h2.1, ?_⟩
    have h3 := h2.2
    simp only [reduceIte] at h3 ⊢
    exact listHas_of_listStarts _ _ h3

/-- Claim C6 witness at a concrete query and file set. -/
theorem claim6_witness :
    find_matching_files (pyStr "AB") [mkPath "AB.pdf", mkPath "ABC.pdf"] "exact" none
      ⊆ find_matching_files (pyStr "AB") [mkPath "AB.pdf", mkPath "ABC.pdf"] "startswith" none
    ∧ find_matching_files (pyStr "AB") [mkPath "AB.pdf", mkPath "ABC.pdf"] "startswith" none
      ⊆ find_matching_files (pyStr "AB") [mkPath "AB.pdf", mkPath "ABC.pdf"] "contains" none :=
  claim6_mode_nesting (pyStr "AB") [mkPath "AB.pdf", mkPath "ABC.pdf"] none

/-! Claims C9 and C10. -/

theorem find_matching_files_empty_key_contains (q : PyStr) (files : List FsPath)
    (exts : Option (List PyStr))
    (h : normalize_for_match (pyStrip (dropTrailing (fun c => c == '*') q)) = []) :
    find_matching_files q files "contains" exts
      = files.filter (fun f => extMatches exts f) := by
  simp only [find_matching_files, h]
  apply List.filter_congr
  intro f _
  simp [listHas_nil_pattern]

theorem find_matching_files_empty_key_starts (q : PyStr) (files : List FsPath)
    (exts : Option (List PyStr))
    (h : normalize_for_match (pyStrip (dropTrailing (fun c => c == '*') q)) = []) :
    find_matching_files q files "startswith" exts
      = files.filter (fun f => extMatches exts f) := by
  simp only [find_matching_files, h]
  apply List.filter_congr
  intro f _
  simp [listStarts_nil_pattern]

/-- Claim C10: a query whose comparison key is empty, such as a bare
asterisk or whitespace, matches every file passing the extension filter in
contains mode and in startswith mode, and looking up a bare asterisk
returns every model-extension file as model files. -/
theorem claim10_empty_key :
    (∀ (q : PyStr) (files : List FsPath) (exts : Option (List PyStr)),
      normalize_for_match (pyStrip (dropTrailing (fun c => c == '*') q)) = [] →
      find_matching_files q files "contains" exts = files.filter (fun f => extMatches exts f)
      ∧ find_matching_files q files "startswith" exts
          = files.filter (fun f => extMatches exts f))
    ∧ (∀ files : List FsPath,
        (lookup_part_number (pyStr "*") files "contains").model_files
          = files.filter (fun f => extMatches (some [pyStr ".ipt", pyStr ".iam"]) f)) := by
  refine ⟨fun q files exts h => ⟨find_matching_files_empty_key_contains q files exts h,
    find_matching_files_empty_key_starts q files exts h⟩, ?_⟩
  intro files
  unfold lookup_part_number
  rw [if_pos (by decide)]
  exact find_matching_files_empty_key_contains (pyStr "*") files _ (by decide)

/-- Claim C10 witness at a concrete file set. -/
theorem claim10_witness :
    normalize_for_match (pyStrip (dropTrailing (fun c => c == '*') (pyStr "*"))) = [] ∧
    (find_matching_files (pyStr "*") [mkPath "a.pdf", mkPath "b.ipt"] "contains" none
       = [mkPath "a.pdf", mkPath "b.ipt"].filter (fun f => extMatches none f)
     ∧ find_matching_files (pyStr "*") [mkPath "a.pdf", mkPath "b.ipt"] "startswith" none
       = [mkPath "a.pdf", mkPath "b.ipt"].filter (fun f => extMatches none f)) :=
  ⟨by decide, claim10_empty_key.1 (pyStr "*") [mkPath "a.pdf", mkPath "b.ipt"] none (by decide)⟩

/-- Claim C9: scan_folder fails with not-found when the path does not
exist, with not-a-directory when it exists but is no directory, and
otherwise returns exactly the regular files below the folder, all
descendants when recursive and only immediate children otherwise. -/
theorem claim9_scan_folder (fs : FileSys) (folder : List String) (r : Bool) :
    (pathPresent fs folder = false → scan_folder fs folder r = Except.error ScanErr.notFound)
    ∧ (pathPresent fs folder = true → pathIsDir fs folder = false →
        scan_folder fs folder r = Except.error ScanErr.notADirectory)
    ∧ (pathIsDir fs folder = true →
        ∃ l, scan_folder fs folder r = Except.ok l ∧
          ∀ p, p ∈ l ↔ ∃ e ∈ fs.entries, e.path = p ∧ e.isDir = false ∧
            (if r then properUnder folder e.path else childOf folder e.path) = true) := by
  refine ⟨?_, ?_, ?_⟩
  · intro h
    unfold scan_folder
    rw [h]
    rfl
  · intro h1 h2
    unfold scan_folder
    rw [h1, h2]
    rfl
  · intro h
    have hp : pathPresent fs folder = true := by
      unfold pathIsDir at h
      unfold pathPresent
      rw [List.any_eq_true] at h ⊢
      rcases h with ⟨e, he, hpe⟩
      rw [Bool.and_eq_true] at hpe
      exact ⟨e, he, hpe.1⟩
    unfold scan_folder
    rw [hp, h]
    simp only [Bool.not_true]
    rw [if_neg (by simp), if_neg (by simp)]
    cases r
    · refine ⟨_, rfl, ?_⟩
      intro p
      simp only [List.mem_map, List.mem_filter, Bool.and_eq_true, Bool.not_eq_true',
        if_neg (by simp : ¬ (false = true))]
      constructor
      · rintro ⟨e, ⟨he, hd, hu⟩, rfl⟩
        exact ⟨e, he, rfl, hd, hu⟩
      · rintro ⟨e, he, rfl, hd, hu⟩
        exact ⟨e, ⟨he, hd, hu⟩, rfl⟩
    · refine ⟨_, rfl, ?_⟩
      intro p
      simp only [List.mem_map, List.mem_filter, Bool.and_eq_true, Bool.not_eq_true', if_pos rfl]
      constructor
      · rintro ⟨e, ⟨he, hd, hu⟩, rfl⟩
        exact ⟨e, he, rfl, hd, hu⟩
      · rintro ⟨e, he, rfl, hd, hu⟩
        exact ⟨e, ⟨he, hd, hu⟩, rfl⟩

/-- Claim C9 witness on a concrete four-entry snapshot. -/
theorem claim9_witness :
    pathIsDir (FileSys.mk [FsEntry.mk ["d"] true, FsEntry.mk ["d", "f.txt"] false,
      FsEntry.mk ["d", "sub"] true, FsEntry.mk ["d", "sub", "g.txt"] false]) ["d"] = true ∧
    ∃ l, scan_folder (FileSys.mk [FsEntry.mk ["d"] true, FsEntry.mk ["d", "f.txt"] false,
        FsEntry.mk ["d", "sub"] true, FsEntry.mk ["d", "sub", "g.txt"] false]) ["d"] true
        = Except.ok l ∧
      ∀ p, p ∈ l ↔ ∃ e ∈ (FileSys.mk [FsEntry.mk ["d"] true, FsEntry.mk ["d", "f.txt"] false,
        FsEntry.mk ["d", "sub"] true, FsEntry.mk ["d", "sub", "g.txt"] false]).entries,
        e.path = p ∧ e.isDir = false ∧
        (if true then properUnder ["d"] e.path else childOf ["d"] e.path) = true :=
  ⟨by decide, (claim9_scan_folder (FileSys.mk [FsEntry.mk ["d"] true,
    FsEntry.mk ["d", "f.txt"] false, FsEntry.mk ["d", "sub"] true,
    FsEntry.mk ["d", "sub", "g.txt"] false]) ["d"] true).2.2 (by decide)⟩

/-! Claim C1: row extraction. -/

theorem find_header_row_aux_bounds :
    ∀ (table : List (List (Option PyStr))) (i h c : Nat),
      find_header_row_aux i table = some (h, c) → i ≤ h ∧ h < i + table.length := by
  intro table
  induction table with
  | nil =>
    intro i h c hx
    simp [find_header_row_aux] at hx
  | cons row rest ih =>
    intro i h c hx
    unfold find_header_row_aux at hx
    cases hcol : find_part_number_column row with
    | some c0 =>
      rw [hcol] at hx
      injection hx with hx1
      injection hx1 with hh hc
      subst hh
      simp
    | none =>
      rw [hcol] at hx
      have := ih (i + 1) h c hx
      simp only [List.length_cons]
      omega

theorem find_header_row_lt (table : List (List (Option PyStr))) (h c : Nat)
    (hx : find_header_row table = some (h, c)) : h < table.length := by
  have := find_header_row_aux_bounds table 0 h c hx
  omega

theorem extract_cond_eq (table : List (List (Option PyStr))) (h c : Nat) :
    ((table.take h).filter (fun row => !is_header_like (get_cell_value row (some c)))).any
        (fun row => !(get_cell_value row (some c)).isEmpty)
      = (table.take h).any (fun row => validPartCell row c) := by
  rw [List.any_filter]
  congr 1
  funext row
  unfold validPartCell
  rw [Bool.and_comm]

theorem extract_eq_specExtract (table : List (List (Option PyStr))) :
    extract_part_rows_from_table table = specExtract table := by
  unfold extract_part_rows_from_table specExtract
  by_cases hlen : table.length < 2
  · rw [if_pos hlen]
    cases hfr : find_header_row table with
    | none => rfl
    | some pr =>
      obtain ⟨h, c⟩ := pr
      have hb : h < table.length := find_header_row_lt table h c hfr
      have h0 : h = 0 := by omega
      subst h0
      have hdrop : table.drop 1 = [] := by
        cases table with
        | nil => rfl
        | cons a t =>
          simp only [List.length_cons] at hlen
          simp only [List.drop_succ_cons, List.drop_zero]
          cases t with
          | nil => rfl
          | cons b u =>
            simp only [List.length_cons] at hlen
            exact (by omega : False).elim
      unfold chosenRows
      simp [hdrop]
  · rw [if_neg hlen]
    cases hfr : find_header_row table with
    | none => rfl
    | some pr =>
      obtain ⟨h, c⟩ := pr
      unfold chosenRows
      dsimp only
      rw [← extract_cond_eq]
      rfl

/-- Claim C1: row extraction equals the specified selection of rows above
or below the header with per-row validity filtering, every emitted part
number is non-empty and not header-like, and the example table yields
exactly ABC123 then XYZ789. -/
theorem claim1_row_extraction :
    (∀ table, extract_part_rows_from_table table = specExtract table)
    ∧ (∀ table r, r ∈ extract_part_rows_from_table table →
        r.part_number ≠ [] ∧ is_header_like r.part_number = false)
    ∧ (extract_part_rows_from_table
        [[some (pyStr "Name"), some (pyStr "PART NUMBER"), some (pyStr "Qty")],
         [some (pyStr "Widget"), some (pyStr "ABC123"), some (pyStr "10")],
         [some (pyStr "Gadget"), some (pyStr "XYZ789"), some (pyStr "5")]]).map
        (fun r => r.part_number) = [pyStr "ABC123", pyStr "XYZ789"] := by
  refine ⟨extract_eq_specExtract, ?_, by decide⟩
  intro table r hr
  rw [extract_eq_specExtract] at hr
  unfold specExtract at hr
  cases hfr : find_header_row table with
  | none =>
    rw [hfr] at hr
    simp at hr
  | some pr =>
    obtain ⟨h, c⟩ := pr
    rw [hfr] at hr
    rw [List.mem_filterMap] at hr
    obtain ⟨row, _, hemit⟩ := hr
    unfold emitRow at hemit
    simp only at hemit
    split at hemit
    · rename_i hcond
      injection hemit with hre
      subst hre
      rw [Bool.and_eq_true] at hcond
      obtain ⟨h1, h2⟩ := hcond
      constructor
      · simp only [Bool.not_eq_true'] at h1
        intro hcontra
        have hpn : get_cell_value row (some c) = [] := hcontra
        rw [hpn] at h1
        simp at h1
      · show is_header_like (get_cell_value row (some c)) = false
        simpa using h2
    · cases hemit

/-- Claim C1 witness: the first extracted row of the example table. -/
theorem claim1_witness :
    ({ part_number := pyStr "ABC123", title := pyStr "Widget", description := [],
       material := [], mass := [], qty := pyStr "10" } : PartRow).part_number ≠ []
    ∧ is_header_like
        ({ part_number := pyStr "ABC123", title := pyStr "Widget", description := [],
           material := [], mass := [], qty := pyStr "10" } : PartRow).part_number
      = false :=
  claim1_row_extraction.2.1
    [[some (pyStr "Name"), some (pyStr "PART NUMBER"), some (pyStr "Qty")],
     [some (pyStr "Widget"), some (pyStr "ABC123"), some (pyStr "10")],
     [some (pyStr "Gadget"), some (pyStr "XYZ789"), some (pyStr "5")]]
    { part_number := pyStr "ABC123", title := pyStr "Widget", description := [],
      material := [], mass := [], qty := pyStr "10" }
    (by decide)

/-! Claim C5: the grouping key of the revision collapser. -/

theorem spanDigits_append (l : PyStr) : (spanDigits l).1 ++ (spanDigits l).2 = l := by
  induction l with
  | nil => rfl
  | cons c cs ih =>
    unfold spanDigits
    by_cases h : c.isDigit
    · simp only [if_pos h]
      simpa using ih
    · simp [h]

theorem spanDigits_digits (l : PyStr) : ∀ c ∈ (spanDigits l).1, c.isDigit = true := by
  induction l with
  | nil => intro c hc; simp [spanDigits] at hc
  | cons a cs ih =>
    intro c hc
    unfold spanDigits at hc
    by_cases h : a.isDigit
    · simp only [if_pos h] at hc
      simp only [List.mem_cons] at hc
      rcases hc with rfl | hc
      · exact h
      · exact ih c hc
    · simp [h] at hc

theorem matchRevAt_some (l ds rest : PyStr) (h : matchRevAt l = some (ds, rest)) :
    (l = '_' :: 'r' :: 'e' :: 'v' :: (ds ++ rest) ∨ l = '_' :: 'r' :: (ds ++ rest))
    ∧ ds ≠ [] ∧ ∀ c ∈ ds, c.isDigit = true := by
  unfold matchRevAt at h
  split at h
  · rename_i h2
    split at h
    · rename_i hev
      injection h with hpair
      have hds : (spanDigits (l.drop 4)).1 = ds := by rw [hpair]
      have hrest : (spanDigits (l.drop 4)).2 = rest := by rw [hpair]
      refine ⟨Or.inl ?_, ?_, ?_⟩
      · have hl4 : ds ++ rest = l.drop 4 := by rw [← hds, ← hrest, spanDigits_append]
        have h0 : l = l.take 2 ++ l.drop 2 := (List.take_append_drop 2 l).symm
        rw [h2] at h0
        have h1 : l.drop 2 = (l.drop 2).take 2 ++ (l.drop 2).drop 2 :=
          (List.take_append_drop 2 (l.drop 2)).symm
        rw [hev.1, List.drop_drop] at h1
        norm_num at h1
        rw [← hl4] at h1
        rw [h1] at h0
        simpa using h0
      · rw [← hds]; exact hev.2
      · rw [← hds]; exact spanDigits_digits _
    · split at h
      · rename_i hev hne
        injection h with hpair
        have hds : (spanDigits (l.drop 2)).1 = ds := by rw [hpair]
        have hrest : (spanDigits (l.drop 2)).2 = rest := by rw [hpair]
        refine ⟨Or.inr ?_, ?_, ?_⟩
        · have hl2 : ds ++ rest = l.drop 2 := by rw [← hds, ← hrest, spanDigits_append]
          have h0 : l = l.take 2 ++ l.drop 2 := (List.take_append_drop 2 l).symm
          rw [h2, ← hl2] at h0
          simpa using h0
        · rw [← hds]; exact hne
        · rw [← hds]; exact spanDigits_digits _
      · exact absurd h (by simp)
  · exact absurd h (by simp)

theorem matchRevAt_rest_length (l ds rest : PyStr) (h : matchRevAt l = some (ds, rest)) :
    rest.length < l.length := by
  obtain ⟨hl, hne, _⟩ := matchRevAt_some l ds rest h
  have hd : 1 ≤ ds.length := by
    cases ds with
    | nil => exact absurd rfl hne
    | cons a t => simp
  rcases hl with rfl | rfl <;> simp [List.length_append] <;> omega

theorem digit_not_space_hyphen (c : Char) (hc : c.isDigit = true) :
    (isPySpace c || c == '-') = false := by
  by_contra hne
  rw [Bool.not_eq_false, Bool.or_eq_true] at hne
  rcases hne with h | h
  · unfold isPySpace at h
    simp only [Bool.or_eq_true, beq_iff_eq] at h
    rcases h with ((((h | h) | h) | h) | h) | h <;> subst h <;> exact absurd hc (by decide)
  · rw [beq_iff_eq] at h
    subst h
    exact absurd hc (by decide)

theorem matchRevAt_filter_space_hyphen (l ds rest : PyStr)
    (h : matchRevAt l = some (ds, rest)) :
    l.filter (fun c => isPySpace c || c == '-') = rest.filter (fun c => isPySpace c || c == '-') := by
  obtain ⟨hl, _, hdig⟩ := matchRevAt_some l ds rest h
  have hds : ds.filter (fun c => isPySpace c || c == '-') = [] := by
    rw [List.filter_eq_nil_iff]
    intro c hc
    simp [digit_not_space_hyphen c (hdig c hc)]
  rcases hl with rfl | rfl <;>
    simp [List.filter_cons, List.filter_append, hds,
      (by decide : isPySpace '_' = false), (by decide : isPySpace 'r' = false),
      (by decide : isPySpace 'e' = false), (by decide : isPySpace 'v' = false)]

theorem removeRevFuel_filter_space_hyphen :
    ∀ (fuel : Nat) (l : PyStr), l.length ≤ fuel →
      (removeRevFuel fuel l).filter (fun c => isPySpace c || c == '-')
        = l.filter (fun c => isPySpace c || c == '-') := by
  intro fuel
  induction fuel with
  | zero =>
    intro l hl
    have : l = [] := by
      cases l with
      | nil => rfl
      | cons a t => simp at hl
    subst this
    rfl
  | succ n ih =>
    intro l hl
    cases l with
    | nil => rfl
    | cons c cs =>
      unfold removeRevFuel
      cases hm : matchRevAt (c :: cs) with
      | some pr =>
        obtain ⟨ds, rest⟩ := pr
        have hlen := matchRevAt_rest_length _ _ _ hm
        simp only [List.length_cons] at hl hlen
        rw [ih rest (by omega)]
        exact (matchRevAt_filter_space_hyphen _ _ _ hm).symm
      | none =>
        simp only [List.filter_cons]
        simp only [List.length_cons] at hl
        rw [ih cs (by omega)]

/-- Claim C5 as amended: the grouping key is the lowercased stem with every
revision token removed and nothing else: spaces and hyphens are preserved
verbatim (underscores only disappear as part of a revision token), so stems
differing only in such characters fall into distinct revision groups, and a
space-differing pair collapses to both files rather than one. -/
theorem claim5_base_key :
    (∀ s : PyStr, (get_base_name_without_revision s).filter (fun c => isPySpace c || c == '-')
        = (pyLower s).filter (fun c => isPySpace c || c == '-'))
    ∧ get_base_name_without_revision (pyStr "A-B_rev1") = pyStr "a-b"
    ∧ get_base_name_without_revision (pyStr "A_B") = pyStr "a_b"
    ∧ collapse_to_latest_revision [mkPath "a b_rev1.pdf", mkPath "ab_rev2.pdf"]
        = [mkPath "a b_rev1.pdf", mkPath "ab_rev2.pdf"] := by
  refine ⟨?_, by decide, by decide, by decide⟩
  intro s
  unfold get_base_name_without_revision
  exact removeRevFuel_filter_space_hyphen _ _ le_rfl

/-! Claim C2: the revision collapser. -/

theorem lookupG_add_self (gs : List (PyStr × List (Option Nat × FsPath))) (k : PyStr)
    (v : Option Nat × FsPath) :
    lookupG (addToGroups gs k v) k = some ((lookupG gs k).getD [] ++ [v]) := by
  induction gs with
  | nil => simp [addToGroups, lookupG]
  | cons g rest ih =>
    obtain ⟨k', vs⟩ := g
    by_cases h : k' = k
    · subst h
      simp [addToGroups, lookupG]
    · simp [addToGroups, lookupG, h, ih]

theorem lookupG_add_other (gs : List (PyStr × List (Option Nat × FsPath))) (k : PyStr)
    (v : Option Nat × FsPath) (k' : PyStr) (h : k' ≠ k) :
    lookupG (addToGroups gs k v) k' = lookupG gs k' := by
  induction gs with
  | nil => simp [addToGroups, lookupG, Ne.symm h]
  | cons g rest ih =>
    obtain ⟨k0, vs⟩ := g
    by_cases h0 : k0 = k
    · subst h0
      simp [addToGroups, lookupG, Ne.symm h]
    · by_cases h1 : k0 = k'
      · subst h1
        simp [addToGroups, lookupG, h0]
      · simp [addToGroups, lookupG, h0, h1, ih]

theorem lookupG_build_some (files : List FsPath) :
    ∀ (gs : List (PyStr × List (Option Nat × FsPath))) (k : PyStr)
      (vs : List (Option Nat × FsPath)), lookupG gs k = some vs →
      lookupG (files.foldl (fun gs f => addToGroups gs (baseOf f) (revOf f, f)) gs) k
        = some (vs ++ (files.filter (fun f => decide (baseOf f = k))).map
            (fun f => (revOf f, f))) := by
  induction files with
  | nil =>
    intro gs k vs h
    simpa using h
  | cons f fs ih =>
    intro gs k vs h
    simp only [List.foldl_cons]
    by_cases hb : baseOf f = k
    · subst hb
      have hadd := lookupG_add_self gs (baseOf f) (revOf f, f)
      rw [h] at hadd
      rw [ih _ _ _ hadd]
      simp [List.filter_cons]
    · have hadd := lookupG_add_other gs (baseOf f) (revOf f, f) k (fun hh => hb hh.symm)
      rw [ih _ _ _ (hadd.trans h)]
      simp [List.filter_cons, hb]

theorem lookupG_build_none (files : List FsPath) :
    ∀ (gs : List (PyStr × List (Option Nat × FsPath))) (k : PyStr), lookupG gs k = none →
      lookupG (files.foldl (fun gs f => addToGroups gs (baseOf f) (revOf f, f)) gs) k
        = if (files.filter (fun f => decide (baseOf f = k))).isEmpty then none
          else some ((files.filter (fun f => decide (baseOf f = k))).map
            (fun f => (revOf f, f))) := by
  induction files with
  | nil =>
    intro gs k h
    simpa using h
  | cons f fs ih =>
    intro gs k h
    simp only [List.foldl_cons]
    by_cases hb : baseOf f = k
    · subst hb
      have hadd := lookupG_add_self gs (baseOf f) (revOf f, f)
      rw [h] at hadd
      simp only [Option.getD_none, List.nil_append] at hadd
      rw [lookupG_build_some fs _ _ _ hadd]
      simp [List.filter_cons]
    · have hadd := lookupG_add_other gs (baseOf f) (revOf f, f) k (fun hh => hb hh.symm)
      rw [ih _ _ (hadd.trans h)]
      simp [List.filter_cons, hb]

theorem keysOf_add (gs : List (PyStr × List (Option Nat × FsPath))) (k : PyStr)
    (v : Option Nat × FsPath) :
    keysOf (addToGroups gs k v)
      = if (lookupG gs k).isSome then keysOf gs else keysOf gs ++ [k] := by
  induction gs with
  | nil => simp [addToGroups, keysOf, lookupG]
  | cons g rest ih =>
    obtain ⟨k0, vs⟩ := g
    by_cases h : k0 = k
    · subst h
      simp [addToGroups, keysOf, lookupG]
    · have hcons : addToGroups ((k0, vs) :: rest) k v
          = (k0, vs) :: addToGroups rest k v := by
        simp [addToGroups, h]
      rw [hcons]
      have hkeys : keysOf ((k0, vs) :: addToGroups rest k v)
          = k0 :: keysOf (addToGroups rest k v) := rfl
      rw [hkeys, ih]
      have hlook : lookupG ((k0, vs) :: rest) k = lookupG rest k := by
        simp [lookupG, h]
      rw [hlook]
      by_cases hh : (lookupG rest k).isSome
      · rw [if_pos hh, if_pos hh]
        rfl
      · rw [if_neg hh, if_neg hh]
        rfl

theorem lookupG_none_iff (gs : List (PyStr × List (Option Nat × FsPath))) (k : PyStr) :
    lookupG gs k = none ↔ k ∉ keysOf gs := by
  induction gs with
  | nil => simp [lookupG, keysOf]
  | cons g rest ih =>
    obtain ⟨k0, vs⟩ := g
    by_cases h : k0 = k
    · subst h
      simp [lookupG, keysOf]
    · simp [lookupG, keysOf, h, ih, Ne.symm h]

theorem keys_nodup_fold (files : List FsPath) :
    ∀ gs, (keysOf gs).Nodup →
      (keysOf (files.foldl (fun gs f => addToGroups gs (baseOf f) (revOf f, f)) gs)).Nodup := by
  induction files with
  | nil => intro gs h; simpa using h
  | cons f fs ih =>
    intro gs h
    simp only [List.foldl_cons]
    apply ih
    rw [keysOf_add]
    by_cases hh : (lookupG gs (baseOf f)).isSome
    · simp [hh, h]
    · rw [if_neg hh]
      rw [List.nodup_append]
      refine ⟨h, List.nodup_singleton _, ?_⟩
      rw [List.disjoint_singleton]
      have hnone : lookupG gs (baseOf f) = none := by
        cases hl : lookupG gs (baseOf f) with
        | none => rfl
        | some w => rw [hl] at hh; simp at hh
      exact (lookupG_none_iff gs (baseOf f)).mp hnone

theorem keys_nodup_build (files : List FsPath) : (keysOf (buildGroups files)).Nodup := by
  unfold buildGroups
  exact keys_nodup_fold files [] (by simp [keysOf])

theorem lookupG_of_mem (gs : List (PyStr × List (Option Nat × FsPath)))
    (hnd : (keysOf gs).Nodup) (p : PyStr × List (Option Nat × FsPath)) (hp : p ∈ gs) :
    lookupG gs p.1 = some p.2 := by
  induction gs with
  | nil => simp at hp
  | cons g rest ih =>
    obtain ⟨k0, vs⟩ := g
    rw [List.mem_cons] at hp
    have hk : keysOf ((k0, vs) :: rest) = k0 :: keysOf rest := rfl
    rw [hk, List.nodup_cons] at hnd
    rcases hp with rfl | hp
    · simp [lookupG]
    · have hne : k0 ≠ p.1 := by
        intro hcontra
        apply hnd.1
        rw [hcontra]
        exact List.mem_map.mpr ⟨p, hp, rfl⟩
      simp only [lookupG, if_neg hne]
      exact ih hnd.2 hp

theorem lookupG_buildGroups (files : List FsPath) (k : PyStr) :
    lookupG (buildGroups files) k
      = if (files.filter (fun f => decide (baseOf f = k))).isEmpty then none
        else some ((files.filter (fun f => decide (baseOf f = k))).map
          (fun f => (revOf f, f))) := by
  unfold buildGroups
  exact lookupG_build_none files [] k rfl

theorem buildGroups_mem_vals (files : List FsPath) :
    ∀ p ∈ buildGroups files, ∀ x ∈ p.2, baseOf x.2 = p.1 := by
  intro p hp x hx
  have hl := lookupG_of_mem (buildGroups files) (keys_nodup_build files) p hp
  rw [lookupG_buildGroups] at hl
  split at hl
  · exact absurd hl (by simp)
  · injection hl with hv
    rw [← hv] at hx
    rw [List.mem_map] at hx
    obtain ⟨f, hf, hfx⟩ := hx
    rw [List.mem_filter] at hf
    rw [← hfx]
    simpa using hf.2

theorem mem_pickLatest (items : List (Option Nat × FsPath)) (x : FsPath)
    (hx : x ∈ pickLatest items) : ∃ y ∈ items, y.2 = x := by
  simp only [pickLatest] at hx
  split at hx
  · rw [List.mem_map] at hx
    obtain ⟨y, hy, hyx⟩ := hx
    rw [List.mem_filter] at hy
    exact ⟨y, hy.1, hyx⟩
  · rename_i hd tl heq
    rw [List.mem_singleton] at hx
    subst hx
    have hmem : hd ∈ List.insertionSort (fun a b => b.1 ≤ a.1)
        (items.filterMap (fun x =>
          match x.1 with
          | some n => some (n, x.2)
          | none => none)) := by
      rw [heq]
      exact List.mem_cons_self _ _
    rw [(List.perm_insertionSort _ _).mem_iff] at hmem
    rw [List.mem_filterMap] at hmem
    obtain ⟨y, hy, hmy⟩ := hmem
    refine ⟨y, hy, ?_⟩
    cases hr : y.1 with
    | none => rw [hr] at hmy; simp at hmy
    | some n =>
      rw [hr] at hmy
      injection hmy with hp
      exact congrArg Prod.snd hp

theorem insertionSort_head_max :
    ∀ (l : List (Nat × FsPath)) (n : Nat) (m : FsPath),
      (n, m) ∈ l → (∀ x ∈ l, x.1 ≤ n) → (∀ x ∈ l, x.1 = n → x = (n, m)) →
      ∃ t, List.insertionSort (fun a b => b.1 ≤ a.1) l = (n, m) :: t := by
  intro l
  induction l with
  | nil => intro n m hm _ _; simp at hm
  | cons x xs ih =>
    intro n m hm hle hun
    simp only [List.insertionSort]
    by_cases hx : (n, m) ∈ xs
    · obtain ⟨t, ht⟩ := ih n m hx (fun y hy => hle y (List.mem_cons_of_mem _ hy))
        (fun y hy => hun y (List.mem_cons_of_mem _ hy))
      rw [ht]
      simp only [List.orderedInsert]
      split
      · rename_i hcmp
        have hxn : x.1 = n :=
          le_antisymm (hle x (List.mem_cons_self x xs)) (by simpa using hcmp)
        have hxe : x = (n, m) := hun x (List.mem_cons_self x xs) hxn
        exact ⟨(n, m) :: t, by rw [hxe]⟩
      · exact ⟨_, rfl⟩
    · have hxm : x = (n, m) := by
        rcases List.mem_cons.mp hm with hcase | hcase
        · exact hcase.symm
        · exact absurd hcase hx
      subst hxm
      cases hs : List.insertionSort (fun a b => b.1 ≤ a.1) xs with
      | nil =>
        exact ⟨[], by simp [List.orderedInsert]⟩
      | cons y t =>
        simp only [List.orderedInsert]
        have hy : y ∈ xs := by
          have hysort : y ∈ List.insertionSort (fun a b => b.1 ≤ a.1) xs := by
            rw [hs]
            exact List.mem_cons_self y t
          exact ((List.perm_insertionSort _ xs).mem_iff).mp hysort
        have hyn : y.1 ≤ n := hle y (List.mem_cons_of_mem _ hy)
        split
        · exact ⟨y :: t, rfl⟩
        · rename_i hcmp
          exact absurd (by simpa using hyn) hcmp

theorem mem_withRev_iff (members : List FsPath) (x : Nat × FsPath) :
    x ∈ (members.map (fun f => (revOf f, f))).filterMap
        (fun y =>
          match y.1 with
          | some n => some (n, y.2)
          | none => none)
      ↔ x.2 ∈ members ∧ revOf x.2 = some x.1 := by
  rw [List.filterMap_map, List.mem_filterMap]
  constructor
  · rintro ⟨f, hf, hfx⟩
    simp only [Function.comp] at hfx
    cases hr : revOf f with
    | none => rw [hr] at hfx; simp at hfx
    | some n =>
      rw [hr] at hfx
      injection hfx with hp
      have h1 : n = x.1 := congrArg Prod.fst hp
      have h2 : f = x.2 := congrArg Prod.snd hp
      rw [← h2]
      exact ⟨hf, by rw [hr, h1]⟩
  · rintro ⟨hf, hr⟩
    refine ⟨x.2, hf, ?_⟩
    simp only [Function.comp]
    rw [hr]

theorem pickLatest_all_none (members : List FsPath)
    (hall : ∀ f ∈ members, revOf f = none) :
    pickLatest (members.map (fun f => (revOf f, f))) = members := by
  simp only [pickLatest]
  have hwr : (members.map (fun f => (revOf f, f))).filterMap
      (fun y =>
        match y.1 with
        | some n => some (n, y.2)
        | none => none) = [] := by
    rw [List.filterMap_map]
    rw [List.filterMap_eq_nil_iff]
    intro f hf
    simp only [Function.comp]
    rw [hall f hf]
  rw [hwr]
  show ((members.map (fun f => (revOf f, f))).filter (fun x => x.1.isNone)).map
      (fun x => x.2) = members
  have hfil : (members.map (fun f => (revOf f, f))).filter (fun x => x.1.isNone)
      = members.map (fun f => (revOf f, f)) := by
    rw [List.filter_eq_self]
    intro a ha
    rw [List.mem_map] at ha
    obtain ⟨f, hf, rfl⟩ := ha
    simp [hall f hf]
  rw [hfil, List.map_map]
  simp only [Function.comp_def]
  exact List.map_id' members

theorem pickLatest_max (members : List FsPath) (m : FsPath) (n : Nat)
    (hm : m ∈ members) (hr : revOf m = some n)
    (hle : ∀ f ∈ members, ∀ j, revOf f = some j → j ≤ n)
    (hun : ∀ f ∈ members, revOf f = some n → f = m) :
    pickLatest (members.map (fun f => (revOf f, f))) = [m] := by
  have h1 : (n, m) ∈ (members.map (fun f => (revOf f, f))).filterMap
      (fun y =>
        match y.1 with
        | some n => some (n, y.2)
        | none => none) :=
    (mem_withRev_iff members (n, m)).mpr ⟨hm, hr⟩
  have h2 : ∀ x ∈ (members.map (fun f => (revOf f, f))).filterMap
      (fun y =>
        match y.1 with
        | some n => some (n, y.2)
        | none => none), x.1 ≤ n := by
    intro x hx
    obtain ⟨hxm, hxr⟩ := (mem_withRev_iff members x).mp hx
    exact hle x.2 hxm x.1 hxr
  have h3 : ∀ x ∈ (members.map (fun f => (revOf f, f))).filterMap
      (fun y =>
        match y.1 with
        | some n => some (n, y.2)
        | none => none), x.1 = n → x = (n, m) := by
    intro x hx hxn
    obtain ⟨hxm, hxr⟩ := (mem_withRev_iff members x).mp hx
    have hx2 : x.2 = m := hun x.2 hxm (by rw [← hxn]; exact hxr)
    obtain ⟨a, b⟩ := x
    simp only at hxn hx2
    rw [hxn, hx2]
  obtain ⟨t, ht⟩ := insertionSort_head_max _ n m h1 h2 h3
  simp only [pickLatest]
  rw [ht]

theorem join_groups_filter (k : PyStr) :
    ∀ (L : List (PyStr × List (Option Nat × FsPath))),
      (∀ p ∈ L, ∀ x ∈ p.2, baseOf x.2 = p.1) → (keysOf L).Nodup →
      ((L.map (fun g => pickLatest g.2)).flatten).filter (fun f => decide (baseOf f = k))
        = match lookupG L k with
          | none => []
          | some vs => pickLatest vs := by
  intro L
  induction L with
  | nil => intro _ _; rfl
  | cons g rest ih =>
    intro hvals hnd
    obtain ⟨k0, vs⟩ := g
    have hk : keysOf ((k0, vs) :: rest) = k0 :: keysOf rest := rfl
    rw [hk, List.nodup_cons] at hnd
    have hrest := ih (fun p hp => hvals p (List.mem_cons_of_mem _ hp)) hnd.2
    simp only [List.map_cons, List.flatten_cons, List.filter_append]
    by_cases hk0 : k0 = k
    · subst hk0
      have h1 : (pickLatest vs).filter (fun f => decide (baseOf f = k0)) = pickLatest vs := by
        rw [List.filter_eq_self]
        intro a ha
        obtain ⟨y, hy, hy2⟩ := mem_pickLatest vs a ha
        have hb := hvals (k0, vs) (List.mem_cons_self _ _) y hy
        rw [← hy2]
        simpa using hb
      have h2 : lookupG rest k0 = none := (lookupG_none_iff rest k0).mpr hnd.1
      rw [h1, hrest, h2]
      simp [lookupG]
    · have h1 : (pickLatest vs).filter (fun f => decide (baseOf f = k)) = [] := by
        rw [List.filter_eq_nil_iff]
        intro a ha
        obtain ⟨y, hy, hy2⟩ := mem_pickLatest vs a ha
        have hb := hvals (k0, vs) (List.mem_cons_self _ _) y hy
        simp only [decide_eq_true_eq]
        intro hcontra
        rw [← hy2] at hcontra
        exact hk0 (hb.symm.trans hcontra)
      rw [h1, hrest]
      simp only [List.nil_append]
      have hlook : lookupG ((k0, vs) :: rest) k = lookupG rest k := by
        simp [lookupG, hk0]
      rw [hlook]

theorem collapse_filter_key (files : List FsPath) (k : PyStr) :
    (collapse_to_latest_revision files).filter (fun f => decide (baseOf f = k))
      = if (files.filter (fun f => decide (baseOf f = k))).isEmpty then []
        else pickLatest ((files.filter (fun f => decide (baseOf f = k))).map
          (fun f => (revOf f, f))) := by
  have hmain : (collapse_to_latest_revision files).filter (fun f => decide (baseOf f = k))
      = match lookupG (buildGroups files) k with
        | none => []
        | some vs => pickLatest vs := by
    unfold collapse_to_latest_revision
    by_cases hf : files.isEmpty
    · rw [if_pos hf]
      have hnil : files = [] := List.isEmpty_iff.mp hf
      subst hnil
      simp [buildGroups, lookupG]
    · rw [if_neg hf]
      exact join_groups_filter k (buildGroups files) (buildGroups_mem_vals files)
        (keys_nodup_build files)
  rw [hmain, lookupG_buildGroups files k]
  by_cases he : (files.filter (fun f => decide (baseOf f = k))).isEmpty
  · rw [if_pos he, if_pos he]
  · rw [if_neg he, if_neg he]

/-- Claim C2: collapse groups files by base key; a group with at least one
parsed revision keeps exactly the unique member carrying the maximal
revision and discards all others, revisionless members included; a group
with no parsed revision is kept whole; groups never interact; and the
three-file example collapses to the latest revision alone. -/
theorem claim2_collapse_groups :
    (∀ (files : List FsPath) (k : PyStr),
      ((∀ f ∈ files.filter (fun f => decide (baseOf f = k)), revOf f = none) →
        (collapse_to_latest_revision files).filter (fun f => decide (baseOf f = k))
          = files.filter (fun f => decide (baseOf f = k)))
      ∧ (∀ (m : FsPath) (n : Nat),
          m ∈ files.filter (fun f => decide (baseOf f = k)) → revOf m = some n →
          (∀ f ∈ files.filter (fun f => decide (baseOf f = k)),
            ∀ j, revOf f = some j → j ≤ n) →
          (∀ f ∈ files.filter (fun f => decide (baseOf f = k)),
            revOf f = some n → f = m) →
          (collapse_to_latest_revision files).filter (fun f => decide (baseOf f = k)) = [m]))
    ∧ collapse_to_latest_revision [mkPath "ABC123.pdf", mkPath "ABC123_rev1.pdf",
        mkPath "ABC123_rev2.pdf"] = [mkPath "ABC123_rev2.pdf"] := by
  refine ⟨?_, by decide⟩
  intro files k
  by_cases he : (files.filter (fun f => decide (baseOf f = k))).isEmpty
  · have hemp := List.isEmpty_iff.mp he
    constructor
    · intro _
      rw [collapse_filter_key, if_pos he, hemp]
    · intro m n hm _ _ _
      rw [hemp] at hm
      simp at hm
  · constructor
    · intro hall
      rw [collapse_filter_key, if_neg he]
      exact pickLatest_all_none _ hall
    · intro m n hm hr hle hun
      rw [collapse_filter_key, if_neg he]
      exact pickLatest_max _ m n hm hr hle hun

/-- Claim C2 witness: the three-file example through the group
characterization, the maximal revision being 2. -/
theorem claim2_witness :
    (collapse_to_latest_revision [mkPath "ABC123.pdf", mkPath "ABC123_rev1.pdf",
      mkPath "ABC123_rev2.pdf"]).filter
      (fun f => decide (baseOf f = pyStr "abc123")) = [mkPath "ABC123_rev2.pdf"] :=
  (claim2_collapse_groups.1 [mkPath "ABC123.pdf", mkPath "ABC123_rev1.pdf",
      mkPath "ABC123_rev2.pdf"] (pyStr "abc123")).2
    (mkPath "ABC123_rev2.pdf") 2
    (by decide)
    (by decide)
    (by
      intro f hf j hj
      have hm : ([mkPath "ABC123.pdf", mkPath "ABC123_rev1.pdf",
          mkPath "ABC123_rev2.pdf"].filter (fun f => decide (baseOf f = pyStr "abc123")))
          = [mkPath "ABC123.pdf", mkPath "ABC123_rev1.pdf", mkPath "ABC123_rev2.pdf"] := by
        decide
      rw [hm] at hf
      fin_cases hf
      · rw [show revOf (mkPath "ABC123.pdf") = none from by decide] at hj
        cases hj
      · rw [show revOf (mkPath "ABC123_rev1.pdf") = some 1 from by decide] at hj
        injection hj with hj1
        omega
      · rw [show revOf (mkPath "ABC123_rev2.pdf") = some 2 from by decide] at hj
        injection hj with hj1
        omega)
    (by
      intro f hf hr
      have hm : ([mkPath "ABC123.pdf", mkPath "ABC123_rev1.pdf",
          mkPath "ABC123_rev2.pdf"].filter (fun f => decide (baseOf f = pyStr "abc123")))
          = [mkPath "ABC123.pdf", mkPath "ABC123_rev1.pdf", mkPath "ABC123_rev2.pdf"] := by
        decide
      rw [hm] at hf
      fin_cases hf
      · rw [show revOf (mkPath "ABC123.pdf") = none from by decide] at hr
        cases hr
      · rw [show revOf (mkPath "ABC123_rev1.pdf") = some 1 from by decide] at hr
        injection hr with hr1
        exact absurd hr1 (by decide)
      · rfl)
